import Mathlib

/-!
Verification of the Pico container engine (rpico).

The definitions below are a shallow embedding of the Rust sources:
`src/crypt.rs` (the XOR cipher), `src/constants.rs` (layout constants),
`src/errors.rs` (the error enumeration) and `src/file.rs` (the `Pico`
container: `new`, `open`, `get`, `put`, `get_metadata`, `put_metadata`,
`check_hash`, `write_header`, `flush`).

Bytes are modelled as `Nat` (every stored byte is `< 256`; the cipher's
`^` is `Nat.xor`, and `as u8` casts appear as `% 256`).  The seekable
byte store (`std::fs::File` behind `Seek + Read + Write`) is modelled as
a byte list plus a cursor, together with a schedule of outcomes for the
fallible primitive operations (seek / read / write / flush): the head of
the schedule decides whether the next primitive fails, and an empty
schedule means every operation succeeds.  The `io::Error` payload of a
failing primitive is not modelled; the `PicoError` constructors keep the
per-call-site diagnostic codes.  A Rust `panic!` (the zero-length-key
panic in `crypt`) is modelled as `Option.none`, distinct from the
`Except` error channel used for `Result`.  The MD5 primitive is external
to the crate and appears as an abstract `digest` function over the byte
stream that `check_hash` feeds to it.
-/

deriving instance DecidableEq for Except

namespace RPico

/-! ### Constants (`src/constants.rs`) -/

/-- Pico file magic number. -/
def MAGIC : Nat := 0x91c0

/-- Major version number of supported Pico format. -/
def MAJOR : Nat := 1

/-- Minor version number of supported Pico format. -/
def MINOR : Nat := 0

/-- Size (in bytes) of the magic number. -/
def MAGIC_LEN : Nat := 2

/-- Size (in bytes) of the major version number. -/
def MAJOR_LEN : Nat := 2

/-- Size (in bytes) of the minor version number. -/
def MINOR_LEN : Nat := 2

/-- Size (in bytes) of the data offset. -/
def OFFSET_LEN : Nat := 4

/-- Size (in bytes) of the hash. -/
def HASH_LEN : Nat := 16

/-- Size (in bytes) of the key length. -/
def KEYLEN_LEN : Nat := 2

/-- Zero-based offset to magic number. -/
def MAGIC_POS : Nat := 0

/-- Zero-based offset to major version number. -/
def MAJOR_POS : Nat := MAGIC_POS + MAGIC_LEN

/-- Zero-based offset to minor version number. -/
def MINOR_POS : Nat := MAJOR_POS + MAJOR_LEN

/-- Zero-based offset to the offset. -/
def OFFSET_POS : Nat := MINOR_POS + MINOR_LEN

/-- Zero-based offset to the hash. -/
def HASH_POS : Nat := OFFSET_POS + OFFSET_LEN

/-- Zero-based offset to the key length. -/
def KEYLEN_POS : Nat := HASH_POS + HASH_LEN

/-- Zero-based offset to the key. -/
def KEY_POS : Nat := KEYLEN_POS + KEYLEN_LEN

/-- Desired chunk size to read and write. -/
def CHUNK_SIZE : Nat := 4096

/-! ### Errors (`src/errors.rs`)

Each I/O-wrapping constructor keeps the `u32` diagnostic code; the
wrapped `io::Error` cause and the file-name strings are not modelled. -/

/-- The `PicoError` enumeration from `src/errors.rs`. -/
inductive PicoError where
  | FileNotFound (code : Nat)
  | FileExists (code : Nat)
  | SeekFailed (code : Nat)
  | ReadFailed (code : Nat)
  | WriteFailed (code : Nat)
  | NotPico (magic : Nat)
  | BadVersion (major minor : Nat)
  | KeyError
  | BadOffset (offset minOffset : Nat)
  | HashError
  | InternalError (code : Nat)
deriving DecidableEq

/-! ### The byte store

The seekable random-access store behind the container.  `sched` is the
environment's schedule of outcomes for the successive fallible primitive
operations: `popOk` yields `false` when the next primitive operation is
to fail with an underlying I/O error.  The empty schedule makes every
operation succeed. -/

/-- A seekable byte store: contents, cursor, and I/O-outcome schedule. -/
structure FS where
  data : List Nat
  pos : Nat
  sched : List Bool
deriving DecidableEq

/-- Pop the outcome of the next fallible primitive store operation. -/
def popOk : List Bool → Bool × List Bool
  | [] => (true, [])
  | b :: r => (b, r)

/-- Write `bytes` into `d` at absolute offset `off`, zero-filling any gap
past the current end of the contents (the behaviour of writing after a
seek past end of file). -/
def writeAt (d : List Nat) (off : Nat) (bytes : List Nat) : List Nat :=
  (d.take off ++ List.replicate (off - d.length) 0) ++
    (bytes ++ d.drop (off + bytes.length))

/-- Primitive `seek(SeekFrom::Start(off))`. -/
def fsSeek (s : FS) (off : Nat) : Except Unit FS :=
  match popOk s.sched with
  | (false, _) => .error ()
  | (true, r) => .ok ⟨s.data, off, r⟩

/-- Primitive `read(&mut buf)`: fills a prefix of the caller's buffer
with the bytes available at the cursor, returns the updated buffer, the
count actually read (0 at end of file), and the advanced store. -/
def fsReadBuf (s : FS) (buf : List Nat) : Except Unit (List Nat × Nat × FS) :=
  match popOk s.sched with
  | (false, _) => .error ()
  | (true, r) =>
    let bytes := (s.data.drop s.pos).take buf.length
    .ok (bytes ++ buf.drop bytes.length, bytes.length, ⟨s.data, s.pos + bytes.length, r⟩)

/-- Primitive `write(&buf)`: writes the whole buffer at the cursor and
returns the count written. -/
def fsWrite (s : FS) (bytes : List Nat) : Except Unit (Nat × FS) :=
  match popOk s.sched with
  | (false, _) => .error ()
  | (true, r) => .ok (bytes.length, ⟨writeAt s.data s.pos bytes, s.pos + bytes.length, r⟩)

/-- Primitive `flush()`. -/
def fsFlush (s : FS) : Except Unit FS :=
  match popOk s.sched with
  | (false, _) => .error ()
  | (true, r) => .ok ⟨s.data, s.pos, r⟩

/-! ### Cipher (`src/crypt.rs`) -/

/-- The body of the `for` loop of `crypt`: element `j` of the traversal
is XORed with `key[(j + position) % key.len()]`. -/
def cryptGo (position : Nat) (key : List Nat) : Nat → List Nat → List Nat
  | _, [] => []
  | j, b :: rest =>
    (b ^^^ key.getD ((j + position) % key.length) 0) ::
      cryptGo position key (j + 1) rest

/-- `crypt` from `src/crypt.rs`: in-place XOR of the data with the
position-indexed keystream.  `panic!("Zero length key.")` on an empty
key is modelled as `none`. -/
def crypt (position : Nat) (data : List Nat) (key : List Nat) : Option (List Nat) :=
  if key.length = 0 then none
  else some (cryptGo position key 0 data)

/-! ### The container (`src/file.rs`) -/

/-- The `Pico` container: parsed header fields, hash-validity flag, key,
derived metadata window, and the owned byte store. -/
structure Pico where
  major : Nat
  minor : Nat
  offset : Nat
  hash : List Nat
  key : List Nat
  is_hash_valid : Bool
  md_start : Nat
  md_length : Nat
  file : FS
deriving DecidableEq

/-- Big-endian `u16` to bytes (`ByteDump for u16` in `src/intbytes.rs`). -/
def u16Bytes (v : Nat) : List Nat := [(v >>> 8) % 256, v % 256]

/-- Big-endian `u32` to bytes (`ByteDump for u32` in `src/intbytes.rs`). -/
def u32Bytes (v : Nat) : List Nat :=
  [(v >>> 24) % 256, (v >>> 16) % 256, (v >>> 8) % 256, v % 256]

/-- The local `tou16` helper of `Pico::open`. -/
def tou16 (buf : List Nat) : Nat :=
  (buf.getD 0 0) <<< 8 ||| buf.getD 1 0

/-- The local `tou32` helper of `Pico::open`. -/
def tou32 (buf : List Nat) : Nat :=
  (buf.getD 0 0) <<< 24 ||| (buf.getD 1 0) <<< 16 |||
    (buf.getD 2 0) <<< 8 ||| buf.getD 3 0

/-- One write of `Pico::write_header`: a failing store write becomes
`WriteFailed` with the given diagnostic code; the returned count is
dropped, as in the source. -/
def wrStep (s : FS) (bytes : List Nat) (code : Nat) : Except PicoError FS :=
  match fsWrite s bytes with
  | .error _ => .error (.WriteFailed code)
  | .ok (_, s2) => .ok s2

/-- `Pico::write_header`: seek to offset 0, then write magic, versions,
offset, hash, key length and key, with diagnostic codes 1018–1025.  Only
the store changes; the returned `FS` replaces the container's `file`. -/
def write_header (c : Pico) : Except PicoError FS :=
  match fsSeek c.file 0 with
  | .error _ => .error (.SeekFailed 1018)
  | .ok s0 =>
    match wrStep s0 (u16Bytes MAGIC) 1019 with
    | .error e => .error e
    | .ok s1 =>
      match wrStep s1 (u16Bytes c.major) 1020 with
      | .error e => .error e
      | .ok s2 =>
        match wrStep s2 (u16Bytes c.minor) 1021 with
        | .error e => .error e
        | .ok s3 =>
          match wrStep s3 (u32Bytes c.offset) 1022 with
          | .error e => .error e
          | .ok s4 =>
            match wrStep s4 c.hash 1023 with
            | .error e => .error e
            | .ok s5 =>
              match wrStep s5 (u16Bytes c.key.length) 1024 with
              | .error e => .error e
              | .ok s6 =>
                match wrStep s6 c.key 1025 with
                | .error e => .error e
                | .ok s7 => .ok s7

/-- `Pico::new`: build the in-memory container (note: the key is stored
as given, with no length validation and no random-key generation), write
the header, flush the store (diagnostic 1001 on failure).  The
`md_length` argument is a `u32` (its value is taken mod `2^32`), and the
offset field is computed with the source's u32 arithmetic: `md_start as
u32 + md_length` truncates `md_start` to 32 bits and the addition wraps
on overflow (release-build semantics; a debug build would panic there
instead).  The `md_length` field stores `md_length as usize`, the
untruncated u32 value. -/
def Pico.new (file : FS) (key : List Nat) (md_length : Nat) : Except PicoError Pico :=
  let md_start := key.length + KEY_POS
  let pico : Pico :=
    { major := MAJOR, minor := MINOR,
      offset := (md_start % 4294967296 + md_length % 4294967296) % 4294967296,
      hash := List.replicate HASH_LEN 0, is_hash_valid := false,
      key := key, md_start := md_start, md_length := md_length % 4294967296,
      file := file }
  match write_header pico with
  | .error e => .error e
  | .ok s =>
    match fsFlush s with
    | .error _ => .error (.WriteFailed 1001)
    | .ok s2 => .ok { pico with file := s2 }

/-- `Pico::open`: read and validate the header from the store.  The
two-byte and four-byte scratch buffers are reused across reads exactly
as in the source (a short read leaves stale bytes in place), and every
read's count is ignored, as in the source. -/
def openPico (s0 : FS) : Except PicoError Pico :=
  match fsReadBuf s0 [0, 0] with
  | .error _ => .error (.ReadFailed 1002)
  | .ok (b1, _, s1) =>
    let magic := tou16 b1
    if magic ≠ MAGIC then .error (.NotPico magic)
    else
      match fsReadBuf s1 b1 with
      | .error _ => .error (.ReadFailed 1003)
      | .ok (b2, _, s2) =>
        let major := tou16 b2
        match fsReadBuf s2 b2 with
        | .error _ => .error (.ReadFailed 1004)
        | .ok (b3, _, s3) =>
          let minor := tou16 b3
          if major > MAJOR then .error (.BadVersion major minor)
          else
            match fsReadBuf s3 [0, 0, 0, 0] with
            | .error _ => .error (.ReadFailed 1005)
            | .ok (b4, _, s4) =>
              let offset := tou32 b4
              match fsReadBuf s4 (List.replicate HASH_LEN 0) with
              | .error _ => .error (.ReadFailed 1006)
              | .ok (hash, _, s5) =>
                match fsReadBuf s5 b3 with
                | .error _ => .error (.ReadFailed 1007)
                | .ok (b6, _, s6) =>
                  let keylen := tou16 b6
                  if keylen = 0 then .error .KeyError
                  else
                    match fsReadBuf s6 (List.replicate keylen 0) with
                    | .error _ => .error (.ReadFailed 1008)
                    | .ok (key, _, s7) =>
                      let md_start := KEY_POS + keylen
                      if offset < md_start then
                        .error (.BadOffset offset md_start)
                      else
                        .ok { major := major, minor := minor, offset := offset,
                              key := key, hash := hash,
                              md_length := offset - md_start,
                              md_start := md_start, is_hash_valid := true,
                              file := s7 }

/-- `Pico::get`: seek to `offset + position`, read into the buffer, then
decrypt the whole buffer in place (the cipher is applied past the read
count, exactly as in the source).  Returns the count read, the buffer
after the call, and the container (only its store cursor changed). -/
def Pico.get (c : Pico) (position : Nat) (buffer : List Nat) :
    Option (Except PicoError (Nat × List Nat × Pico)) :=
  let trueOffset := position + c.offset
  match fsSeek c.file trueOffset with
  | .error _ => some (.error (.SeekFailed 1014))
  | .ok s1 =>
    match fsReadBuf s1 buffer with
    | .error _ => some (.error (.ReadFailed 1015))
    | .ok (buf1, count, s2) =>
      match crypt position buf1 c.key with
      | none => none
      | some dec => some (.ok (count, dec, { c with file := s2 }))

/-- `Pico::put`: seek to `offset + position`, encrypt the caller's buffer
in place, write it.  A failing store write is wrapped — as written in
the source — in `ReadFailed` with diagnostic 1017.  The hash-validity
flag is not assigned anywhere in the function.  Returns the count
written, the (now encrypted) caller buffer, and the container. -/
def Pico.put (c : Pico) (position : Nat) (buffer : List Nat) :
    Option (Except PicoError (Nat × List Nat × Pico)) :=
  let trueOffset := position + c.offset
  match fsSeek c.file trueOffset with
  | .error _ => some (.error (.SeekFailed 1016))
  | .ok s1 =>
    match crypt position buffer c.key with
    | none => none
    | some enc =>
      match fsWrite s1 enc with
      | .error _ => some (.error (.ReadFailed 1017))
      | .ok (count, s2) => some (.ok (count, enc, { c with file := s2 }))

/-- `Pico::get_metadata`: bounds-checked unencrypted read from the
metadata window.  Returns the count read, the buffer after the call, and
the container. -/
def Pico.get_metadata (c : Pico) (start : Nat) (buffer : List Nat) :
    Except PicoError (Nat × List Nat × Pico) :=
  let mdlen := c.md_length
  if mdlen = 0 ∨ start ≥ mdlen then .ok (0, buffer, c)
  else
    let trueOffset := start + c.md_start
    let max := if mdlen - start > buffer.length then buffer.length else mdlen - start
    match fsSeek c.file trueOffset with
    | .error _ => .error (.SeekFailed 1010)
    | .ok s1 =>
      match fsReadBuf s1 (buffer.take max) with
      | .error _ => .error (.ReadFailed 1011)
      | .ok (part, count, s2) =>
        .ok (count, part ++ buffer.drop max, { c with file := s2 })

/-- `Pico::put_metadata`: bounds-checked unencrypted write into the
metadata window.  Returns the count written and the container. -/
def Pico.put_metadata (c : Pico) (start : Nat) (buffer : List Nat) :
    Except PicoError (Nat × Pico) :=
  let mdlen := c.md_length
  if mdlen = 0 ∨ start ≥ mdlen then .ok (0, c)
  else
    let trueOffset := start + c.md_start
    let max := if mdlen - start > buffer.length then buffer.length else mdlen - start
    if max = 0 then .ok (0, c)
    else
      match fsSeek c.file trueOffset with
      | .error _ => .error (.SeekFailed 1012)
      | .ok s1 =>
        match fsWrite s1 (buffer.take max) with
        | .error _ => .error (.WriteFailed 1013)
        | .ok (count, s2) => .ok (count, { c with file := s2 })

/-- The loop of `Pico::check_hash`, with the call to `Pico::get` inlined
(seek, read into the reused chunk buffer, decrypt the whole buffer):
starting from data-region position 0, read chunks through the container's
own read path, stop on a zero-length read, and `consume` the ENTIRE
buffer — `context.consume(&buffer[..])`, not just the `num` bytes
returned — into the digest after each positive-length read.  Returns the
accumulated consumed stream, the remaining schedule, and the final store
cursor. -/
def hashLoop (data : List Nat) (offset : Nat) (key : List Nat)
    (position : Nat) (buffer : List Nat) (sched : List Bool) (acc : List Nat) :
    Option (Except PicoError (List Nat × List Bool × Nat)) :=
  match popOk sched with
  | (false, _) => some (.error (.SeekFailed 1014))
  | (true, r1) =>
    match popOk r1 with
    | (false, _) => some (.error (.ReadFailed 1015))
    | (true, r2) =>
      let bytes := (data.drop (position + offset)).take buffer.length
      let num := bytes.length
      match crypt position (bytes ++ buffer.drop num) key with
      | none => none
      | some dec =>
        if num = 0 then some (.ok (acc, r2, position + offset))
        else hashLoop data offset key (position + num) dec r2 (acc ++ dec)
termination_by data.length - (position + offset)
decreasing_by
  unfold num bytes at *
  simp only [List.length_take, List.length_drop] at *
  omega

/-- `Pico::check_hash`: nothing to do when the hash is already valid;
otherwise recompute it by streaming the data region through the loop
above and storing `digest` of the consumed stream, then mark the hash
valid.  `digest` stands for the external incremental MD5 primitive
(`md5::Context::consume` / `compute` over the consumed byte stream). -/
def check_hash (digest : List Nat → List Nat) (c : Pico) :
    Option (Except PicoError Pico) :=
  if c.is_hash_valid then some (.ok c)
  else
    match hashLoop c.file.data c.offset c.key 0 (List.replicate CHUNK_SIZE 0)
        c.file.sched [] with
    | none => none
    | some (.error e) => some (.error e)
    | some (.ok (stream, sched2, pos2)) =>
      some (.ok { c with hash := digest stream, is_hash_valid := true,
                         file := ⟨c.file.data, pos2, sched2⟩ })

/-- `Pico::flush`: repair the hash if stale, rewrite the header at store
offset 0, then flush the store (diagnostic 1009 on failure). -/
def flush (digest : List Nat → List Nat) (c : Pico) :
    Option (Except PicoError Pico) :=
  match check_hash digest c with
  | none => none
  | some (.error e) => some (.error e)
  | some (.ok c1) =>
    match write_header c1 with
    | .error e => some (.error e)
    | .ok s =>
      match fsFlush s with
      | .error _ => some (.error (.WriteFailed 1009))
      | .ok s2 => some (.ok { c1 with file := s2 })

/-! ### Cipher lemmas -/

/-- The cipher loop preserves the buffer length. -/
theorem cryptGo_length (position : Nat) (key : List Nat) :
    ∀ (j : Nat) (data : List Nat), (cryptGo position key j data).length = data.length := by
  intro j data
  induction data generalizing j with
  | nil => rfl
  | cons b rest ih => simp [cryptGo, ih]

/-- Applying the cipher loop twice with the same parameters is the
identity, for any starting index. -/
theorem cryptGo_cryptGo (position : Nat) (key : List Nat) :
    ∀ (j : Nat) (data : List Nat),
      cryptGo position key j (cryptGo position key j data) = data := by
  intro j data
  induction data generalizing j with
  | nil => rfl
  | cons b rest ih =>
    simp only [cryptGo, ih]
    rw [Nat.xor_assoc, Nat.xor_self, Nat.xor_zero]

/-- Element `i` of the cipher loop output is the input element XORed with
the keystream byte at `(j + i + position) % key.length`. -/
theorem cryptGo_getD (position : Nat) (key : List Nat) :
    ∀ (j : Nat) (data : List Nat) (i : Nat), i < data.length →
      (cryptGo position key j data).getD i 0 =
        data.getD i 0 ^^^ key.getD ((j + i + position) % key.length) 0 := by
  intro j data
  induction data generalizing j with
  | nil => intro i hi; simp at hi
  | cons b rest ih =>
    intro i hi
    cases i with
    | zero => simp [cryptGo]
    | succ i =>
      simp only [cryptGo, List.getD_cons_succ]
      rw [ih (j + 1) i (by simpa using hi)]
      have harg : j + 1 + i + position = j + (i + 1) + position := by omega
      rw [harg]

/-- The cipher loop with the one-byte key `[0x00]` is the identity. -/
theorem cryptGo_key_zero (position : Nat) :
    ∀ (j : Nat) (data : List Nat), cryptGo position [0] j data = data := by
  intro j data
  induction data generalizing j with
  | nil => rfl
  | cons b rest ih => simp [cryptGo, ih]

/-- C5: the cipher transform is an involution: for every position, every
non-empty key, and every buffer, applying `crypt` twice with the same
position and key restores the buffer's original contents. -/
theorem crypt_involution (position : Nat) (data key : List Nat) (hk : key ≠ []) :
    (crypt position data key).bind (fun d => crypt position d key) = some data := by
  have hlen : key.length ≠ 0 := by simpa using hk
  simp [crypt, hlen, cryptGo_cryptGo]

/-- Witness for `crypt_involution` at a concrete position, key and buffer. -/
theorem crypt_involution_witness :
    (crypt 3 [1, 2, 3] [7]).bind (fun d => crypt 3 d [7]) = some [1, 2, 3] :=
  crypt_involution 3 [1, 2, 3] [7] (by decide)

/-- C6: for every position, non-empty key and buffer, `crypt` XORs the
buffer byte at index `i` with `key[(position + i) % key.length]`; key
`[0x40, 0x09]` at position 0 sends `[0x09, 0x20, 0x00, 0xE0]` to
`[0x49, 0x29, 0x40, 0xE9]`; and the key `[0x00]` is the identity. -/
theorem crypt_formula :
    (∀ (position : Nat) (data key : List Nat) (i : Nat), key ≠ [] → i < data.length →
      ∃ out, crypt position data key = some out ∧
        out.getD i 0 = data.getD i 0 ^^^ key.getD ((position + i) % key.length) 0) ∧
    crypt 0 [0x09, 0x20, 0x00, 0xE0] [0x40, 0x09] = some [0x49, 0x29, 0x40, 0xE9] ∧
    (∀ (position : Nat) (data : List Nat), crypt position data [0x00] = some data) := by
  refine ⟨?_, by decide, ?_⟩
  · intro position data key i hk hi
    have hlen : key.length ≠ 0 := by simpa using hk
    refine ⟨cryptGo position key 0 data, by simp [crypt, hlen], ?_⟩
    rw [cryptGo_getD position key 0 data i hi]
    have harg : 0 + i + position = position + i := by omega
    rw [harg]
  · intro position data
    simp [crypt, cryptGo_key_zero]

/-- Witness for `crypt_formula`: its universally quantified first part at
a concrete position, buffer, key and index. -/
theorem crypt_formula_witness :
    ∃ out, crypt 0 [5, 6] [3] = some out ∧
      out.getD 1 0 = ([5, 6] : List Nat).getD 1 0 ^^^
        ([3] : List Nat).getD ((0 + 1) % ([3] : List Nat).length) 0 :=
  crypt_formula.1 0 [5, 6] [3] 1 (by decide) (by decide)

/-! ### Concrete sample stores and containers -/

/-- Bytes of a well-formed stored file: magic `0x91C0`, version 1.0,
data offset 29, zero hash, key length 1, key byte `0x01`, and a single
data byte `0x09` at offset 29. -/
def hdrC1 : List Nat :=
  [0x91, 0xC0, 0, 1, 0, 0, 0, 0, 0, 29] ++ List.replicate 16 0 ++ [0, 1, 1, 9]

/-- The container `openPico` yields on `hdrC1`. -/
def cOpened : Pico :=
  { major := 1, minor := 0, offset := 29, hash := List.replicate 16 0,
    key := [1], is_hash_valid := true, md_start := 29, md_length := 0,
    file := ⟨hdrC1, 29, []⟩ }

/-- `hdrC1` after `put(0, [0x07])`: the data byte becomes `7 XOR 1 = 6`. -/
def hdrC1put : List Nat :=
  [0x91, 0xC0, 0, 1, 0, 0, 0, 0, 0, 29] ++ List.replicate 16 0 ++ [0, 1, 1, 6]

/-- `cOpened` after `put(0, [0x07])`.  The hash-validity flag is still
`true`: `Pico::put` contains no assignment to it. -/
def cAfterPut : Pico :=
  { major := 1, minor := 0, offset := 29, hash := List.replicate 16 0,
    key := [1], is_hash_valid := true, md_start := 29, md_length := 0,
    file := ⟨hdrC1put, 30, []⟩ }

/-- C1 (counter-evidence): a container opened from an existing store has
`is_hash_valid = true`; a successful `put` of a non-empty buffer on the
data region returns `Ok` and leaves `is_hash_valid = true` — the code
never performs the claimed Valid-to-Invalid transition. -/
theorem put_leaves_hash_flag_valid :
    openPico ⟨hdrC1, 0, []⟩ = .ok cOpened ∧
    cOpened.is_hash_valid = true ∧
    Pico.put cOpened 0 [7] = some (.ok (1, [6], cAfterPut)) ∧
    cAfterPut.is_hash_valid = true := by decide

/-- Stored file for the hash-recompute scenario: 29 header bytes (their
content is irrelevant to `check_hash`) followed by a one-byte data
region `[0x09]`. -/
def hdrC2 : List Nat := List.replicate 29 0 ++ [9]

/-- A freshly created container over `hdrC2`: key `[0x00]` (so the
cipher is the identity and the decrypted data region is exactly `[9]`),
data offset 29, stale hash. -/
def cB : Pico :=
  { major := 1, minor := 0, offset := 29, hash := List.replicate 16 0,
    key := [0], is_hash_valid := false, md_start := 29, md_length := 0,
    file := ⟨hdrC2, 0, []⟩ }

/-- One successful iteration of the recompute loop, with the chunk read
and its decryption supplied as hypotheses: the loop consumes the whole
decrypted buffer `dec` and advances by the count actually read. -/
theorem hashLoop_step (data : List Nat) (offset : Nat) (key : List Nat)
    (position : Nat) (buffer acc bytes dec : List Nat)
    (hk : key.length ≠ 0)
    (hbytes : (data.drop (position + offset)).take buffer.length = bytes)
    (hne : bytes ≠ [])
    (hdec : cryptGo position key 0 (bytes ++ buffer.drop bytes.length) = dec) :
    hashLoop data offset key position buffer [] acc =
      hashLoop data offset key (position + bytes.length) dec [] (acc ++ dec) := by
  rw [hashLoop]
  simp only [popOk, hbytes, crypt, hk, if_false, hdec, List.length_eq_zero]
  simp [hne]

/-- Termination of the recompute loop: once the cursor has reached the
end of the stored bytes the next read returns 0 bytes and the loop
yields the accumulated stream. -/
theorem hashLoop_stop (data : List Nat) (offset : Nat) (key : List Nat)
    (position : Nat) (buffer acc : List Nat)
    (hk : key.length ≠ 0) (hend : data.length ≤ position + offset) :
    hashLoop data offset key position buffer [] acc =
      some (.ok (acc, [], position + offset)) := by
  rw [hashLoop]
  have hb : (data.drop (position + offset)).take buffer.length = [] := by
    simp [List.drop_eq_nil_of_le hend]
  simp only [popOk, hb, List.length_nil, List.nil_append, List.drop_zero]
  simp [crypt, hk]

/-- Evaluation of the recompute loop on `cB`'s store: the single-byte
data region produces a consumed stream of one full 4096-byte chunk —
the data byte followed by 4095 bytes of chunk-buffer fill — not the one
byte the read returned. -/
theorem hashLoop_cB :
    hashLoop hdrC2 29 [0] 0 (List.replicate 4096 0) [] [] =
      some (.ok (9 :: List.replicate 4095 0, [], 30)) := by
  rw [hashLoop_step hdrC2 29 [0] 0 (List.replicate 4096 0) [] [9]
    (9 :: List.replicate 4095 0) (by decide)
    (by rw [List.length_replicate]; decide) (by decide)
    (by rw [cryptGo_key_zero]; rfl)]
  norm_num
  rw [hashLoop_stop hdrC2 29 [0] 1 (9 :: List.replicate 4095 0)
    (9 :: List.replicate 4095 0) (by decide) (by decide)]

/-- C2 (counter-evidence): on a stale container whose decrypted data
region is the single byte `[9]` (key `[0x00]`, so decryption is the
identity), the recompute feeds the digest a full 4096-byte chunk — the
data byte followed by 4095 buffer-fill bytes — rather than exactly the
one byte returned by `get`, so the stored hash is the digest of a
stream that differs from the data region. -/
theorem check_hash_consumes_whole_chunks :
    check_hash (fun l => l) cB =
      some (.ok { cB with hash := 9 :: List.replicate 4095 0,
                          is_hash_valid := true, file := ⟨hdrC2, 30, []⟩ }) ∧
    cB.file.data.drop cB.offset = [9] ∧
    (9 :: List.replicate 4095 0) ≠ [9] := by
  refine ⟨?_, by decide, by decide⟩
  simp only [check_hash, cB, CHUNK_SIZE]
  rw [hashLoop_cB]
  rfl

/-- The store contents `Pico::new` produces for an empty key: a header
that records key length 0 (which `Pico::open` would refuse with
`KeyError`). -/
def hdrEmpty : List Nat :=
  [0x91, 0xC0, 0, 1, 0, 0, 0, 0, 0, 28] ++ List.replicate 16 0 ++ [0, 0]

/-- The container `Pico::new` returns for an empty key. -/
def cEmptyKey : Pico :=
  { major := 1, minor := 0, offset := 28, hash := List.replicate 16 0,
    key := [], is_hash_valid := false, md_start := 28, md_length := 0,
    file := ⟨hdrEmpty, 28, []⟩ }

/-- C3 (counter-evidence): `Pico::new` called with an empty key returns
`Ok` and constructs a container whose key has length 0 — no validation
rejects the empty key and no random key is substituted. -/
theorem new_accepts_empty_key :
    Pico.new ⟨[], 0, []⟩ [] 0 = .ok cEmptyKey ∧ cEmptyKey.key.length = 0 := by
  decide

/-- `cOpened` with a one-byte metadata window (`offset` 30,
`md_length` 1), for exercising the `put_metadata` write path. -/
def cMd : Pico := { cOpened with offset := 30, md_length := 1 }

/-- C10: when the underlying store's write fails during `put` on the
data region, `put` returns a `ReadFailed` error with diagnostic 1017,
while every other failing write in the module — `put_metadata`, the
seven header-field writes of `write_header`, the flush inside `new`,
and the flush inside `flush` — returns `WriteFailed` with diagnostics
1013, 1019–1025, 1001 and 1009 respectively.  The schedules below make
exactly the corresponding store write fail. -/
theorem put_write_error_kind :
    Pico.put { cOpened with file := ⟨hdrC1, 0, [true, false]⟩ } 0 [7] =
      some (.error (.ReadFailed 1017)) ∧
    Pico.put_metadata { cMd with file := ⟨hdrC1, 0, [true, false]⟩ } 0 [7] =
      .error (.WriteFailed 1013) ∧
    write_header { cOpened with file := ⟨hdrC1, 0, List.replicate 1 true ++ [false]⟩ } =
      .error (.WriteFailed 1019) ∧
    write_header { cOpened with file := ⟨hdrC1, 0, List.replicate 2 true ++ [false]⟩ } =
      .error (.WriteFailed 1020) ∧
    write_header { cOpened with file := ⟨hdrC1, 0, List.replicate 3 true ++ [false]⟩ } =
      .error (.WriteFailed 1021) ∧
    write_header { cOpened with file := ⟨hdrC1, 0, List.replicate 4 true ++ [false]⟩ } =
      .error (.WriteFailed 1022) ∧
    write_header { cOpened with file := ⟨hdrC1, 0, List.replicate 5 true ++ [false]⟩ } =
      .error (.WriteFailed 1023) ∧
    write_header { cOpened with file := ⟨hdrC1, 0, List.replicate 6 true ++ [false]⟩ } =
      .error (.WriteFailed 1024) ∧
    write_header { cOpened with file := ⟨hdrC1, 0, List.replicate 7 true ++ [false]⟩ } =
      .error (.WriteFailed 1025) ∧
    Pico.new ⟨[], 0, List.replicate 8 true ++ [false]⟩ [] 0 =
      .error (.WriteFailed 1001) ∧
    flush (fun _ => []) { cOpened with file := ⟨hdrC1, 0, List.replicate 8 true ++ [false]⟩ } =
      some (.error (.WriteFailed 1009)) := by
  decide

/-! ### Round trip (data plane) -/

/-- Reading back from the store at the offset of a write returns the
written bytes followed by the bytes that were beyond the write. -/
theorem writeAt_drop (d : List Nat) (off : Nat) (bs : List Nat) :
    (writeAt d off bs).drop off = bs ++ d.drop (off + bs.length) := by
  unfold writeAt
  have hA : (d.take off ++ List.replicate (off - d.length) 0).length = off := by
    simp only [List.length_append, List.length_take, List.length_replicate]
    omega
  rw [List.drop_left' hA]

/-- C4: for every container with a non-empty key (and no injected I/O
failures), every position and every data byte sequence, `put` followed
by `get` at the same position with a buffer of the same length succeeds
and returns exactly the original bytes — the bytes the caller held
before `put` encrypted them in place. -/
theorem put_get_roundtrip (c : Pico) (p : Nat) (b buf2 : List Nat)
    (hk : c.key ≠ []) (hs : c.file.sched = []) (hlen : buf2.length = b.length) :
    ∃ enc c' c'',
      Pico.put c p b = some (.ok (b.length, enc, c')) ∧
      Pico.get c' p buf2 = some (.ok (b.length, b, c'')) := by
  have hkl : c.key.length ≠ 0 := by simpa using hk
  have hel : (cryptGo p c.key 0 b).length = b.length := cryptGo_length p c.key 0 b
  refine ⟨cryptGo p c.key 0 b,
    { c with file := ⟨writeAt c.file.data (p + c.offset) (cryptGo p c.key 0 b),
        p + c.offset + (cryptGo p c.key 0 b).length, []⟩ },
    { c with file := ⟨writeAt c.file.data (p + c.offset) (cryptGo p c.key 0 b),
        p + c.offset + (cryptGo p c.key 0 b).length, []⟩ },
    ?_, ?_⟩
  · simp only [Pico.put, fsSeek, hs, popOk, crypt, hkl, if_false, fsWrite, hel]
  · have hbytes :
        ((writeAt c.file.data (p + c.offset) (cryptGo p c.key 0 b)).drop
          (p + c.offset)).take b.length = cryptGo p c.key 0 b := by
      rw [writeAt_drop]
      exact List.take_left' hel
    have hdrop : buf2.drop b.length = [] := by
      rw [← hlen]
      exact List.drop_length buf2
    simp only [Pico.get, fsSeek, popOk, fsReadBuf, hlen, hbytes, hel, hdrop,
      List.append_nil, crypt, hkl, if_false, cryptGo_cryptGo]

/-- Witness for `put_get_roundtrip`: round trip of the byte `[5]` at
position 0 through the concrete opened container. -/
theorem put_get_roundtrip_witness :
    ∃ enc c' c'', Pico.put cOpened 0 [5] = some (.ok (1, enc, c')) ∧
      Pico.get c' 0 [0] = some (.ok (1, [5], c'')) :=
  put_get_roundtrip cOpened 0 [5] [0] (by decide) rfl rfl

/-! ### Offset bookkeeping invariant -/

/-- The spec's offset invariants: `metadataStart = HEADER_FIXED_LEN +
key.len()` and `metadataLength = dataOffset − metadataStart`. -/
def offsets_ok (c : Pico) : Prop :=
  c.md_start = KEY_POS + c.key.length ∧ c.md_length = c.offset - c.md_start

/-- A successful `put` changes only the container's store. -/
theorem put_md_fields {c : Pico} {p : Nat} {b : List Nat}
    {out : Nat × List Nat × Pico} (h : Pico.put c p b = some (.ok out)) :
    out.2.2.md_start = c.md_start ∧ out.2.2.md_length = c.md_length ∧
      out.2.2.offset = c.offset ∧ out.2.2.key = c.key := by
  simp only [Pico.put] at h
  iterate 6 (all_goals (try split at h))
  all_goals try simp at h
  all_goals (subst h; simp)

/-- A successful `get` changes only the container's store. -/
theorem get_md_fields {c : Pico} {p : Nat} {b : List Nat}
    {out : Nat × List Nat × Pico} (h : Pico.get c p b = some (.ok out)) :
    out.2.2.md_start = c.md_start ∧ out.2.2.md_length = c.md_length ∧
      out.2.2.offset = c.offset ∧ out.2.2.key = c.key := by
  simp only [Pico.get] at h
  iterate 6 (all_goals (try split at h))
  all_goals try simp at h
  all_goals (subst h; simp)

/-- A successful `put_metadata` changes only the container's store. -/
theorem put_metadata_md_fields {c : Pico} {st : Nat} {b : List Nat}
    {out : Nat × Pico} (h : Pico.put_metadata c st b = .ok out) :
    out.2.md_start = c.md_start ∧ out.2.md_length = c.md_length ∧
      out.2.offset = c.offset ∧ out.2.key = c.key := by
  simp only [Pico.put_metadata] at h
  iterate 6 (all_goals (try split at h))
  all_goals try simp at h
  all_goals (subst h; simp)

/-- A successful `get_metadata` changes only the container's store. -/
theorem get_metadata_md_fields {c : Pico} {st : Nat} {b : List Nat}
    {out : Nat × List Nat × Pico} (h : Pico.get_metadata c st b = .ok out) :
    out.2.2.md_start = c.md_start ∧ out.2.2.md_length = c.md_length ∧
      out.2.2.offset = c.offset ∧ out.2.2.key = c.key := by
  simp only [Pico.get_metadata] at h
  iterate 6 (all_goals (try split at h))
  all_goals try simp at h
  all_goals (subst h; simp)

/-- A successful `check_hash` changes only the hash, the validity flag
and the store. -/
theorem check_hash_md_fields {digest : List Nat → List Nat} {c c1 : Pico}
    (h : check_hash digest c = some (.ok c1)) :
    c1.md_start = c.md_start ∧ c1.md_length = c.md_length ∧
      c1.offset = c.offset ∧ c1.key = c.key := by
  simp only [check_hash] at h
  iterate 6 (all_goals (try split at h))
  all_goals try simp at h
  all_goals (subst h; simp)

/-- A successful `flush` changes only the hash, the validity flag and
the store. -/
theorem flush_md_fields {digest : List Nat → List Nat} {c c2 : Pico}
    (h : flush digest c = some (.ok c2)) :
    c2.md_start = c.md_start ∧ c2.md_length = c.md_length ∧
      c2.offset = c.offset ∧ c2.key = c.key := by
  simp only [flush] at h
  split at h
  · simp at h
  · simp at h
  · rename_i c1 hch
    split at h
    · simp at h
    · split at h
      · simp at h
      · simp only [Option.some.injEq, Except.ok.injEq] at h
        subst h
        simpa using check_hash_md_fields hch

/-- A successful primitive read returns a buffer of the caller's
buffer length (short reads leave the stale suffix in place). -/
theorem fsReadBuf_len {s : FS} {buf out1 : List Nat} {n : Nat} {s' : FS}
    (h : fsReadBuf s buf = .ok (out1, n, s')) : out1.length = buf.length := by
  simp only [fsReadBuf] at h
  split at h
  · simp at h
  · simp only [Except.ok.injEq, Prod.mk.injEq] at h
    obtain ⟨h1, -, -⟩ := h
    subst h1
    simp only [List.length_append, List.length_take, List.length_drop]
    omega

/-- C7 (amended): at every observable point of a constructed container —
after `new`, after `open`, and after any successful `put`, `get`,
`put_metadata`, `get_metadata` or `flush` — `metadataStart` equals
`HEADER_FIXED_LEN` (28) plus the key length; and `metadataLength` equals
`dataOffset` minus `metadataStart`, where for a container coming from
`new` this second equation requires that the create-time `u32` offset
computation `md_start as u32 + md_length` did not overflow
(`key.len() + 28 + reservedMetadataLength < 2^32`) — the wrap
counterexample below is exactly what this proviso excludes. -/
theorem offsets_invariant :
    (∀ (s : FS) (key : List Nat) (md : Nat) (p : Pico),
       Pico.new s key md = .ok p →
       p.md_start = KEY_POS + p.key.length ∧
       (key.length + 28 + md < 4294967296 →
         p.md_length = p.offset - p.md_start)) ∧
    (∀ (s : FS) (p : Pico), openPico s = .ok p → offsets_ok p) ∧
    (∀ (c : Pico) (pos : Nat) (b : List Nat) (out : Nat × List Nat × Pico),
       Pico.put c pos b = some (.ok out) → offsets_ok c → offsets_ok out.2.2) ∧
    (∀ (c : Pico) (pos : Nat) (b : List Nat) (out : Nat × List Nat × Pico),
       Pico.get c pos b = some (.ok out) → offsets_ok c → offsets_ok out.2.2) ∧
    (∀ (c : Pico) (st : Nat) (b : List Nat) (out : Nat × Pico),
       Pico.put_metadata c st b = .ok out → offsets_ok c → offsets_ok out.2) ∧
    (∀ (c : Pico) (st : Nat) (b : List Nat) (out : Nat × List Nat × Pico),
       Pico.get_metadata c st b = .ok out → offsets_ok c → offsets_ok out.2.2) ∧
    (∀ (digest : List Nat → List Nat) (c c2 : Pico),
       flush digest c = some (.ok c2) → offsets_ok c → offsets_ok c2) := by
  refine ⟨?_, ?_, ?_, ?_, ?_, ?_, ?_⟩
  · intro s key md p h
    simp only [Pico.new] at h
    iterate 6 (all_goals (try split at h))
    all_goals try simp at h
    all_goals subst h
    refine ⟨?_, fun hb => ?_⟩
    · simp only [KEY_POS, KEYLEN_POS, HASH_POS, OFFSET_POS, MINOR_POS,
        MAJOR_POS, MAGIC_POS, MAGIC_LEN, MAJOR_LEN, MINOR_LEN, OFFSET_LEN,
        HASH_LEN, KEYLEN_LEN]
      omega
    · simp only [KEY_POS, KEYLEN_POS, HASH_POS, OFFSET_POS, MINOR_POS,
        MAJOR_POS, MAGIC_POS, MAGIC_LEN, MAJOR_LEN, MINOR_LEN, OFFSET_LEN,
        HASH_LEN, KEYLEN_LEN]
      omega
  · intro s p h
    simp only [openPico] at h
    iterate 14 (all_goals (try split at h))
    all_goals try simp at h
    all_goals subst h
    all_goals rename_i key7 cnt7 s7 heq7 hoff7
    all_goals exact ⟨by simp [offsets_ok, fsReadBuf_len heq7], by simp [offsets_ok]⟩
  · intro c pos b out h hc
    obtain ⟨h1, h2, h3, h4⟩ := put_md_fields h
    simpa [offsets_ok, h1, h2, h3, h4] using hc
  · intro c pos b out h hc
    obtain ⟨h1, h2, h3, h4⟩ := get_md_fields h
    simpa [offsets_ok, h1, h2, h3, h4] using hc
  · intro c st b out h hc
    obtain ⟨h1, h2, h3, h4⟩ := put_metadata_md_fields h
    simpa [offsets_ok, h1, h2, h3, h4] using hc
  · intro c st b out h hc
    obtain ⟨h1, h2, h3, h4⟩ := get_metadata_md_fields h
    simpa [offsets_ok, h1, h2, h3, h4] using hc
  · intro digest c c2 h hc
    obtain ⟨h1, h2, h3, h4⟩ := flush_md_fields h
    simpa [offsets_ok, h1, h2, h3, h4] using hc

/-- Witness for `offsets_invariant`: the invariant at the concrete
container produced by `new` on an empty store, whose create-time offset
computation stays far below the u32 bound. -/
theorem offsets_invariant_witness : offsets_ok cEmptyKey :=
  ⟨(offsets_invariant.1 ⟨[], 0, []⟩ [] 0 cEmptyKey (by decide)).1,
   (offsets_invariant.1 ⟨[], 0, []⟩ [] 0 cEmptyKey (by decide)).2 (by decide)⟩

/-- The container `Pico::new` returns for key `[0x01]` and
`reservedMetadataLength = 0xFFFFFFFF`: the u32 offset computation
`md_start as u32 + md_length` wraps to 28, below `md_start = 29`, while
the `md_length` field keeps the full 4294967295. -/
def cWrap : Pico :=
  { major := 1, minor := 0, offset := 28, hash := List.replicate 16 0,
    key := [1], is_hash_valid := false, md_start := 29,
    md_length := 4294967295,
    file := ⟨[0x91, 0xC0, 0, 1, 0, 0, 0, 0, 0, 28] ++ List.replicate 16 0 ++
      [0, 1, 1], 29, []⟩ }

/-- C7 (counterexample): `new` with key `[0x01]` and reserved metadata
length `0xFFFFFFFF` succeeds, but the create-time u32 offset computation
wraps (release-build semantics; a debug build panics), leaving a freshly
created container with `metadataLength ≠ dataOffset − metadataStart` —
the claimed invariant fails at an observable point right after create. -/
theorem offsets_invariant_counterexample :
    Pico.new ⟨[], 0, []⟩ [1] 4294967295 = .ok cWrap ∧ ¬ offsets_ok cWrap :=
  ⟨by decide, fun hok => absurd hok.2 (by decide)⟩

/-! ### Metadata bounds -/

/-- C8: for every container, start index and buffer: when `start ≥
metadataLength` or `metadataLength = 0`, `put_metadata` and
`get_metadata` return 0 without touching the store; otherwise (absent
injected I/O failures) `put_metadata` writes exactly
`min(buffer.len(), metadataLength − start)` bytes at store offset
`metadataStart + start` (0 bytes, store untouched, for an empty
buffer), and `get_metadata` reads at most that many bytes from the same
offset, returning the count actually transferred. -/
theorem metadata_bounds (c : Pico) (start : Nat) (buffer : List Nat) :
    ((c.md_length = 0 ∨ start ≥ c.md_length) →
       Pico.put_metadata c start buffer = .ok (0, c) ∧
       Pico.get_metadata c start buffer = .ok (0, buffer, c)) ∧
    (start < c.md_length → buffer = [] →
       Pico.put_metadata c start buffer = .ok (0, c)) ∧
    (start < c.md_length → c.file.sched = [] → buffer ≠ [] →
       Pico.put_metadata c start buffer =
         .ok (min buffer.length (c.md_length - start),
           { c with file := ⟨writeAt c.file.data (start + c.md_start)
               (buffer.take (min buffer.length (c.md_length - start))),
             start + c.md_start + min buffer.length (c.md_length - start), []⟩ })) ∧
    (start < c.md_length → c.file.sched = [] →
       ∃ cnt c2, Pico.get_metadata c start buffer =
         .ok (cnt, ((c.file.data.drop (start + c.md_start)).take
             (min buffer.length (c.md_length - start))) ++ buffer.drop cnt, c2) ∧
         cnt = ((c.file.data.drop (start + c.md_start)).take
             (min buffer.length (c.md_length - start))).length ∧
         cnt ≤ min buffer.length (c.md_length - start)) := by
  have hmax : (if c.md_length - start > buffer.length
      then buffer.length else c.md_length - start) =
      min buffer.length (c.md_length - start) := by
    split <;> omega
  refine ⟨?_, ?_, ?_, ?_⟩
  · intro hout
    constructor
    · simp only [Pico.put_metadata]
      rw [if_pos hout]
    · simp only [Pico.get_metadata]
      rw [if_pos hout]
  · intro hin hbe
    have hc1 : ¬(c.md_length = 0 ∨ start ≥ c.md_length) := by omega
    simp only [Pico.put_metadata]
    rw [if_neg hc1, hmax]
    have hz : min buffer.length (c.md_length - start) = 0 := by
      subst hbe
      simp
    rw [if_pos hz]
  · intro hin hs hbne
    have hc1 : ¬(c.md_length = 0 ∨ start ≥ c.md_length) := by omega
    have hbpos : 0 < buffer.length := List.length_pos.mpr hbne
    have hz : ¬(min buffer.length (c.md_length - start) = 0) := by omega
    have htl : (buffer.take (min buffer.length (c.md_length - start))).length =
        min buffer.length (c.md_length - start) := by
      simp only [List.length_take]
      omega
    simp only [Pico.put_metadata]
    rw [if_neg hc1, hmax, if_neg hz]
    simp [fsSeek, hs, popOk, fsWrite, htl]
  · intro hin hs
    have hc1 : ¬(c.md_length = 0 ∨ start ≥ c.md_length) := by omega
    have htl : (buffer.take (min buffer.length (c.md_length - start))).length =
        min buffer.length (c.md_length - start) := by
      simp only [List.length_take]
      omega
    refine ⟨((c.file.data.drop (start + c.md_start)).take
        (min buffer.length (c.md_length - start))).length,
      { c with file := ⟨c.file.data, start + c.md_start +
        ((c.file.data.drop (start + c.md_start)).take
          (min buffer.length (c.md_length - start))).length, []⟩ }, ?_, rfl, ?_⟩
    · simp only [Pico.get_metadata]
      rw [if_neg hc1, hmax]
      simp only [fsSeek, hs, popOk, fsReadBuf, htl]
      have hcnt : ((c.file.data.drop (start + c.md_start)).take
          (min buffer.length (c.md_length - start))).length ≤
          min buffer.length (c.md_length - start) := by
        simp only [List.length_take, List.length_drop]
        omega
      have hsplit : (buffer.take (min buffer.length (c.md_length - start))).drop
            (((c.file.data.drop (start + c.md_start)).take
              (min buffer.length (c.md_length - start))).length) ++
            buffer.drop (min buffer.length (c.md_length - start)) =
          buffer.drop (((c.file.data.drop (start + c.md_start)).take
            (min buffer.length (c.md_length - start))).length) := by
        rw [List.drop_take]
        have hdd : buffer.drop (min buffer.length (c.md_length - start)) =
            (buffer.drop (((c.file.data.drop (start + c.md_start)).take
              (min buffer.length (c.md_length - start))).length)).drop
              (min buffer.length (c.md_length - start) -
                ((c.file.data.drop (start + c.md_start)).take
                  (min buffer.length (c.md_length - start))).length) := by
          rw [List.drop_drop]
          congr 1
          simp only [List.length_take, List.length_drop]
          omega
        rw [hdd, List.take_append_drop]
      simp only [List.append_assoc, hsplit]
    · simp only [List.length_take, List.length_drop]
      omega

/-- Witness for `metadata_bounds`: outside the metadata window (here the
window is empty) both operations return 0 and leave everything alone. -/
theorem metadata_bounds_witness :
    Pico.put_metadata cOpened 5 [7] = .ok (0, cOpened) ∧
    Pico.get_metadata cOpened 5 [7] = .ok (0, [7], cOpened) :=
  (metadata_bounds cOpened 5 [7]).1 (by decide)

/-! ### Offset validation on open -/

/-- C9: on a stored header with the Pico magic, a supported major
version and a non-zero key length field, `open` fails with `BadOffset`
exactly when the stored data offset is less than 28 plus the stored key
length, and the error carries the bad stored offset and the computed
minimum `28 + keyLength`. -/
theorem open_bad_offset (m0 m1 n0 n1 o0 o1 o2 o3 k0 k1 : Nat)
    (hash tail : List Nat) (hhash : hash.length = 16)
    (hmaj : tou16 [m0, m1] ≤ MAJOR) (hkey : tou16 [k0, k1] ≠ 0) :
    (openPico ⟨[0x91, 0xC0, m0, m1, n0, n1, o0, o1, o2, o3] ++ hash ++ [k0, k1] ++ tail,
        0, []⟩ =
      .error (.BadOffset (tou32 [o0, o1, o2, o3]) (28 + tou16 [k0, k1]))) ↔
    tou32 [o0, o1, o2, o3] < 28 + tou16 [k0, k1] := by
  suffices H : ∀ data : List Nat,
      data.take 2 = [0x91, 0xC0] →
      (data.drop 2).take 2 = [m0, m1] →
      (data.drop 4).take 2 = [n0, n1] →
      (data.drop 6).take 4 = [o0, o1, o2, o3] →
      (data.drop 10).take 16 = hash →
      (data.drop 26).take 2 = [k0, k1] →
      ((openPico ⟨data, 0, []⟩ =
          .error (.BadOffset (tou32 [o0, o1, o2, o3]) (28 + tou16 [k0, k1]))) ↔
        tou32 [o0, o1, o2, o3] < 28 + tou16 [k0, k1]) by
    have hd10 : ([0x91, 0xC0, m0, m1, n0, n1, o0, o1, o2, o3] ++ hash ++ [k0, k1]
        ++ tail).drop 10 = hash ++ [k0, k1] ++ tail := rfl
    have htake10 : (([0x91, 0xC0, m0, m1, n0, n1, o0, o1, o2, o3] ++ hash ++ [k0, k1]
        ++ tail).drop 10).take 16 = hash := by
      rw [hd10, List.append_assoc]
      exact List.take_left' hhash
    have hd26 : ([0x91, 0xC0, m0, m1, n0, n1, o0, o1, o2, o3] ++ hash ++ [k0, k1]
        ++ tail).drop 26 = [k0, k1] ++ tail := by
      have h26 : (26 : Nat) = 10 + 16 := rfl
      rw [h26, ← List.drop_drop, hd10, List.append_assoc, List.drop_left' hhash]
    have htake26 : (([0x91, 0xC0, m0, m1, n0, n1, o0, o1, o2, o3] ++ hash ++ [k0, k1]
        ++ tail).drop 26).take 2 = [k0, k1] := by
      rw [hd26]
      rfl
    exact H _ rfl rfl rfl rfl htake10 htake26
  intro data h0 h2 h4 h6 h10 h26
  have hdrop2 : ∀ (a b : Nat), ([a, b] : List Nat).drop 2 = [] := fun a b => rfl
  have hdrop4 : ∀ (a b c d : Nat), ([a, b, c, d] : List Nat).drop 4 = [] :=
    fun a b c d => rfl
  have hrep : (List.replicate (16 : Nat) (0 : Nat)).drop 16 = [] := rfl
  have hmagic : tou16 [0x91, 0xC0] = MAGIC := by decide
  have hnv : ¬ (tou16 [m0, m1] > MAJOR) := not_lt.mpr hmaj
  simp only [openPico, fsReadBuf, popOk, List.drop_zero, List.length_cons,
    List.length_nil, List.length_replicate, Nat.zero_add, h0, hdrop2, hdrop4,
    List.append_nil, h2, h4, h6, h10, hhash, hrep, h26, hmagic, hnv, hkey,
    HASH_LEN, KEY_POS, KEYLEN_POS, HASH_POS, OFFSET_POS, MINOR_POS, MAJOR_POS,
    MAGIC_POS, MAGIC_LEN, MAJOR_LEN, MINOR_LEN, OFFSET_LEN, KEYLEN_LEN]
  by_cases hlt : tou32 [o0, o1, o2, o3] < 28 + tou16 [k0, k1]
  · simp [hlt]
  · simp [hlt]

/-- Witness for `open_bad_offset`: a stored header with key length 1 and
stored offset 10, which is below the minimum 29. -/
theorem open_bad_offset_witness :
    (openPico ⟨[0x91, 0xC0, 0, 1, 0, 0, 0, 0, 0, 10] ++ List.replicate 16 0 ++
        [0, 1] ++ [1], 0, []⟩ =
      .error (.BadOffset (tou32 [0, 0, 0, 10]) (28 + tou16 [0, 1]))) ↔
    tou32 [0, 0, 0, 10] < 28 + tou16 [0, 1] :=
  open_bad_offset 0 1 0 0 0 0 0 10 0 1 (List.replicate 16 0) [1]
    (by decide) (by decide) (by decide)

end RPico
